import Mathlib

/-!
Verification development for the Bitstring Status List debugger core service.

The development shallowly embeds the `BitstringService` operations:
the `DetailedError`-returning implementation (`src/unnamed/part_005`) and,
for the refinement claim, the exception-throwing implementation
(`src/services/bitstringService.ts`, exceptions modelled as `Option.none`).

Machine-level JavaScript semantics is made explicit:
byte buffers are `List Nat` (each element a byte value), JS numbers used as
indices are `Int`, `Math.floor(x / 8)` is `Int.fdiv x 8`, the JS remainder
`x % 8` is `Int.tmod x 8`, out-of-bounds array reads coerce to `0` inside
bitwise expressions, and JS `<<` masks the shift count modulo 32.
-/

namespace BitstringDebugger

/-- Closed error taxonomy, embedded from the `ErrorCode` enum of the types module. -/
inductive ErrorCode where
  | NETWORK_ERROR
  | CORS_ERROR
  | TIMEOUT
  | NOT_FOUND
  | UNAUTHORIZED
  | FORBIDDEN
  | SERVER_ERROR
  | BAD_GATEWAY
  | SERVICE_UNAVAILABLE
  | INVALID_JSON
  | INVALID_CREDENTIAL_FORMAT
  | MISSING_CREDENTIAL_TYPE
  | UNSUPPORTED_CREDENTIAL_TYPE
  | MISSING_BITSTRING_LIST
  | BASE64_DECODE_ERROR
  | GZIP_DECODE_ERROR
  | JWT_PARSE_ERROR
  | DECOMPRESSION_ERROR
  | INVALID_BIT_INDEX
  | INVALID_BIT_RANGE
  | UNKNOWN_ERROR
  deriving DecidableEq, Repr

/-- Structured error value `{code, message, details?, statusCode?, suggestion?}`. -/
structure DetailedError where
  code : ErrorCode
  message : String
  details : Option String
  statusCode : Option Nat
  suggestion : Option String
  deriving DecidableEq, Repr

/-- Embeds `BitstringService.createError` (all five fields passed explicitly;
the source's omitted optional arguments are `none` here). -/
def createError (code : ErrorCode) (message : String) (details : Option String)
    (statusCode : Option Nat) (suggestion : Option String) : DetailedError :=
  { code := code, message := message, details := details,
    statusCode := statusCode, suggestion := suggestion }

/-- JS semantics of reading `l[i]` inside a bitwise expression: an out-of-bounds
or negative index yields `undefined`, which `ToInt32` coerces to `0`. -/
def jsElem (l : List Nat) (i : Int) : Nat :=
  if 0 ≤ i then l.getD i.toNat 0 else 0

/-- JS semantics of the shift count in `1 << b`: the count is taken modulo 32
(`ToUint32(b) & 31`). -/
def jsShift (b : Int) : Nat :=
  (b.emod 32).toNat

/-- Single bit entry `{index, status, purpose}` produced by range queries. -/
structure BitStatus where
  index : Int
  status : Bool
  purpose : String
  deriving DecidableEq, Repr

/-- Embeds `BitstringService.getBitStatus` from `src/unnamed/part_005`
(the `DetailedError`-returning variant): negative-index check, then
`byteIndex = Math.floor(index / 8)`, bounds check against the byte length,
and finally the bit test `(byte & (1 << (index % 8))) !== 0`. -/
def getBitStatus (decodedBits : List Nat) (index : Int) : DetailedError ⊕ Bool :=
  if index < 0 then
    Sum.inl (createError ErrorCode.INVALID_BIT_INDEX ("Invalid bit index")
      (some ("Bit index must be non-negative, but got " ++ toString index ++ "."))
      none
      (some ("Use a valid index starting from 0.")))
  else
    let byteIndex : Int := index.fdiv 8
    let bitIndex : Int := index.tmod 8
    let maxIndex : Int := (decodedBits.length : Int) * 8 - 1
    if byteIndex ≥ (decodedBits.length : Int) then
      Sum.inl (createError ErrorCode.INVALID_BIT_INDEX ("Bit index out of range")
        (some ("Index " ++ toString index ++ " exceeds the maximum index " ++
          toString maxIndex ++ "."))
        none
        (some ("Valid range is 0 to " ++ toString maxIndex ++ ".")))
    else
      Sum.inr (((jsElem decodedBits byteIndex) &&& (1 <<< (jsShift bitIndex))) != 0)

/-- Embeds `BitstringService.getBitStatus` from `src/services/bitstringService.ts`
(the exception-throwing variant, a thrown error modelled as `none`). This
variant has no negative-index check; it only guards `byteIndex >= length`. -/
def getBitStatusThrowing (decodedBits : List Nat) (index : Int) : Option Bool :=
  let byteIndex : Int := index.fdiv 8
  let bitIndex : Int := index.tmod 8
  if byteIndex ≥ (decodedBits.length : Int) then
    none
  else
    some (((jsElem decodedBits byteIndex) &&& (1 <<< (jsShift bitIndex))) != 0)

/-- Loop body of `getBitRange` (`src/unnamed/part_005`): iterate `n` indices
starting at `i`, pushing an entry whenever `getBitStatus` yields a boolean
(errors are silently skipped, exactly as in the source loop). -/
def getBitRangeLoop (decodedBits : List Nat) (i : Int) : Nat → List BitStatus
  | 0 => []
  | Nat.succ m =>
    (match getBitStatus decodedBits i with
      | Sum.inr b => [{ index := i, status := b, purpose := "revocation" }]
      | Sum.inl _ => []) ++ getBitRangeLoop decodedBits (i + 1) m

/-- Embeds `BitstringService.getBitRange` from `src/unnamed/part_005`:
guards in source order (negative start, inverted range, start out of range,
end out of range, range larger than 10000), then the collection loop. -/
def getBitRange (decodedBits : List Nat) (startIndex endIndex : Int) :
    DetailedError ⊕ List BitStatus :=
  if startIndex < 0 then
    Sum.inl (createError ErrorCode.INVALID_BIT_RANGE ("Invalid start index")
      (some ("Start index must be non-negative, but got " ++ toString startIndex ++ "."))
      none
      (some ("Use a valid start index starting from 0.")))
  else if endIndex < startIndex then
    Sum.inl (createError ErrorCode.INVALID_BIT_RANGE ("Invalid bit range")
      (some ("End index (" ++ toString endIndex ++
        ") must be greater than or equal to start index (" ++ toString startIndex ++ ")."))
      none
      (some ("Ensure the end index is not less than the start index.")))
  else
    let maxIndex : Int := (decodedBits.length : Int) * 8 - 1
    if startIndex > maxIndex then
      Sum.inl (createError ErrorCode.INVALID_BIT_RANGE ("Start index out of range")
        (some ("Start index " ++ toString startIndex ++ " exceeds the maximum index " ++
          toString maxIndex ++ "."))
        none
        (some ("Valid range is 0 to " ++ toString maxIndex ++ ".")))
    else if endIndex > maxIndex then
      Sum.inl (createError ErrorCode.INVALID_BIT_RANGE ("End index out of range")
        (some ("End index " ++ toString endIndex ++ " exceeds the maximum index " ++
          toString maxIndex ++ "."))
        none
        (some ("Valid range is 0 to " ++ toString maxIndex ++ ".")))
    else
      let rangeSize : Int := endIndex - startIndex + 1
      if rangeSize > 10000 then
        Sum.inl (createError ErrorCode.INVALID_BIT_RANGE ("Range too large")
          (some ("Range size (" ++ toString rangeSize ++
            ") is too large. Maximum allowed is 10000 bits."))
          none
          (some ("Try a smaller range or check specific bits individually.")))
      else
        Sum.inr (getBitRangeLoop decodedBits startIndex rangeSize.toNat)

/-- Hex digit character, `0`-`9` then `a`-`f`, matching JS `toString(16)`. -/
def hexChar (n : Nat) : Char :=
  if n < 10 then Char.ofNat (48 + n) else Char.ofNat (87 + n)

/-- Two-digit lowercase hex of a byte, matching `b.toString(16).padStart(2, '0')`. -/
def byteHex (b : Nat) : String :=
  String.mk [hexChar (b / 16 % 16), hexChar (b % 16)]

/-- Hex dump of a byte list joined by spaces, as built for the data-header preview. -/
def hexDump (bs : List Nat) : String :=
  String.intercalate (" ") (bs.map byteHex)

/-- JS check `compressed[0] === 0x1f && compressed[1] === 0x8b`; an out-of-bounds
read yields `undefined`, which strict-equals no number, hence `Option.get?`. -/
def hasGzipMagic (compressed : List Nat) : Bool :=
  compressed.get? 0 == some 0x1f && compressed.get? 1 == some 0x8b

/-- Models `new Uint8Array(compressed)`: a total element-wise copy of an
in-memory buffer, which cannot throw. -/
def uint8ArrayCopy (b : List Nat) : Except String (List Nat) :=
  Except.ok b

/-- Embeds the decompression stage of `BitstringService.decodeStatusList`
(`src/unnamed/part_005`, after Base64URL decoding has produced `compressed`).
The two pako `inflate` entry points are oracles (`Except.error` models a
throw carrying the error message): GZIP-magic inputs are inflated with the
GZIP codec (failure: `GZIP_DECODE_ERROR`); otherwise raw DEFLATE is tried,
falling back to the pass-through copy, whose failure would produce
`DECOMPRESSION_ERROR` with a hex dump of the first 10 input bytes. -/
def decodeStatusListBytes (inflateGzip inflateRaw : List Nat → Except String (List Nat))
    (compressed : List Nat) : DetailedError ⊕ List Nat :=
  let hex := hexDump (compressed.take 10)
  if hasGzipMagic compressed then
    match inflateGzip compressed with
    | Except.ok d => Sum.inr d
    | Except.error msg =>
      Sum.inl (createError ErrorCode.GZIP_DECODE_ERROR ("Failed to decompress GZIP data")
        (some ("The GZIP compressed data could not be decompressed. " ++ msg))
        none
        (some ("The compressed data may be corrupted. Try fetching the credential again.")))
  else
    match inflateRaw compressed with
    | Except.ok d => Sum.inr d
    | Except.error _ =>
      match uint8ArrayCopy compressed with
      | Except.ok d => Sum.inr d
      | Except.error _ =>
        Sum.inl (createError ErrorCode.DECOMPRESSION_ERROR ("Failed to decompress data")
          (some ("Unable to decompress the encoded list. Tried GZIP and raw deflate. Data header: "
            ++ hex))
          none
          (some ("The data may not be compressed or uses an unsupported compression format.")))

/-- Subject entity carried under `credentialSubject`; `encodedList` is optional
so that the JS falsiness check `!bitstringList.encodedList` (absent or empty)
can be embedded faithfully. -/
structure BitstringStatusListDoc where
  type : String
  statusPurpose : String
  encodedList : Option String
  deriving DecidableEq, Repr

/-- Unwrapped status-list credential document; `credentialSubject` is optional
to embed the JS falsiness check for an absent field. -/
structure StatusListCredentialDoc where
  credentialSubject : Option BitstringStatusListDoc
  deriving DecidableEq, Repr

/-- Enveloped credential wrapper: only the `id` field (the data-URL-prefixed
JWT) is consumed by the unwrapping code. -/
structure EnvelopedVerifiableCredential where
  id : String
  deriving DecidableEq, Repr

/-- Ordered list of recognized data-URL prefixes, exactly as in the source. -/
def possiblePrefixes : List String :=
  ["data:application/vc+jwt,",
   "data:application/vc-ld+jwt,",
   "data:application/vc+ld+jwt,",
   "data:application/jwt,"]

/-- Models JS `s.startsWith(p)`: `p` is a character-wise prefix of `s` (the
recognized data-URL entries are ASCII, so UTF-16 units and characters agree). -/
def jsStartsWith (s p : String) : Bool :=
  p.data.isPrefixOf s.data

/-- Models JS `s.substring(n)`: the characters of `s` from position `n` on. -/
def jsSubstringFrom (s : String) (n : Nat) : String :=
  String.mk (s.data.drop n)

/-- Embeds the source's strip loop: the first matching entry of
`possiblePrefixes` is removed from the front of the token (the loop breaks
after the first hit); `none` when no entry matches. -/
def stripDataUrl (jwtToken : String) : Option String :=
  (possiblePrefixes.find? (fun p => jsStartsWith jwtToken p)).map
    (fun p => jsSubstringFrom jwtToken p.length)

/-- Translation `-` to `+` and `_` to `/` applied before standard Base64 decoding. -/
def base64urlTranslate (s : String) : String :=
  s.map (fun c => if c = '-' then '+' else if c = '_' then '/' else c)

/-- Embeds the tail of `decodeEnvelopedCredential` after the data-URL prefix has
been stripped: split on dots, require three segments, take the payload,
pad and translate it, then decode (`atob`) and parse (`JSON.parse`) via
oracles whose `Except.error` models a thrown error with its message. -/
def processJwtToken (atob : String → Except String String)
    (jsonParse : String → Except String StatusListCredentialDoc)
    (jwtToken : String) : DetailedError ⊕ StatusListCredentialDoc :=
  let parts := jwtToken.splitOn (".")
  if parts.length ≠ 3 then
    Sum.inl (createError ErrorCode.JWT_PARSE_ERROR ("Invalid JWT structure")
      (some ("JWT must have 3 parts (header.payload.signature), but found " ++
        toString parts.length ++ " parts."))
      none
      (some ("The JWT token is malformed or corrupted.")))
  else
    let payload := parts.getD 1 ""
    if payload = "" then
      Sum.inl (createError ErrorCode.JWT_PARSE_ERROR ("Empty JWT payload")
        (some ("The JWT payload section is empty."))
        none
        (some ("The JWT token is corrupted.")))
    else
      let paddedPayload := payload ++ String.mk (List.replicate ((4 - payload.length % 4) % 4) '=')
      match atob (base64urlTranslate paddedPayload) with
      | Except.error msg =>
        Sum.inl (createError ErrorCode.BASE64_DECODE_ERROR ("Failed to decode JWT payload")
          (some ("Could not decode the JWT payload from Base64. " ++ msg))
          none
          (some ("The JWT payload is not valid Base64 encoded data.")))
      | Except.ok decodedPayload =>
        match jsonParse decodedPayload with
        | Except.error msg =>
          Sum.inl (createError ErrorCode.INVALID_JSON ("Invalid JWT payload JSON")
            (some ("The JWT payload is not valid JSON. " ++ msg))
            none
            (some ("The JWT contains malformed data.")))
        | Except.ok credentialData =>
          match credentialData.credentialSubject with
          | none =>
            Sum.inl (createError ErrorCode.INVALID_CREDENTIAL_FORMAT ("Invalid credential in JWT")
              (some ("The decoded JWT does not contain a valid StatusListCredential."))
              none
              (some ("The JWT payload does not match the expected credential format.")))
          | some _ => Sum.inr credentialData

/-- Embeds `BitstringService.decodeEnvelopedCredential` (`src/unnamed/part_005`):
require a non-empty `id`, strip exactly one recognized data-URL entry
(`JWT_PARSE_ERROR` when none matches), reject an empty remaining token, then
process the JWT token. -/
def decodeEnvelopedCredential (atob : String → Except String String)
    (jsonParse : String → Except String StatusListCredentialDoc)
    (envelopedCred : EnvelopedVerifiableCredential) : DetailedError ⊕ StatusListCredentialDoc :=
  if envelopedCred.id = "" then
    Sum.inl (createError ErrorCode.JWT_PARSE_ERROR ("Missing JWT token")
      (some ("The EnvelopedVerifiableCredential does not contain an id field with the JWT."))
      none
      (some ("The credential format is invalid.")))
  else
    match stripDataUrl envelopedCred.id with
    | none =>
      Sum.inl (createError ErrorCode.JWT_PARSE_ERROR ("Invalid JWT format")
        (some ("The id field does not contain a valid JWT token with a recognized prefix. Got: \""
          ++ envelopedCred.id.take 50 ++ "\"..."))
        none
        (some ("Expected format: \"data:application/vc+jwt,\x7bJWT_TOKEN\x7d\" or similar")))
    | some jwtToken =>
      if jwtToken = "" then
        Sum.inl (createError ErrorCode.JWT_PARSE_ERROR ("Empty JWT token")
          (some ("The JWT token is empty after removing the data URL prefix."))
          none
          (some ("The credential format is invalid.")))
      else
        processJwtToken atob jsonParse jwtToken

/-- Embeds the validation gate of `fetchStatusList` (`src/unnamed/part_005`,
the checks between envelope unwrapping and `decodeStatusList`): missing
`credentialSubject`, wrong subject `type`, and absent-or-empty `encodedList`
each short-circuit with their specific error; decoding proceeds exactly when
the subject is returned. -/
def extractBitstringList (statusListCredential : StatusListCredentialDoc) :
    DetailedError ⊕ BitstringStatusListDoc :=
  match statusListCredential.credentialSubject with
  | none =>
    Sum.inl (createError ErrorCode.MISSING_BITSTRING_LIST ("Missing BitstringStatusList")
      (some ("The credential does not contain a credentialSubject field."))
      none
      (some ("The credential structure is invalid. Verify it\x27s a status list credential.")))
  | some bitstringList =>
    if bitstringList.type ≠ "BitstringStatusList" then
      Sum.inl (createError ErrorCode.INVALID_CREDENTIAL_FORMAT ("Invalid BitstringStatusList")
        (some ("Expected type \"BitstringStatusList\" but got \"" ++ bitstringList.type ++ "\"."))
        none
        (some ("The credential is not a valid Bitstring Status List credential.")))
    else if bitstringList.encodedList.getD "" = "" then
      Sum.inl (createError ErrorCode.INVALID_CREDENTIAL_FORMAT ("Missing encoded list")
        (some ("The BitstringStatusList does not contain an encodedList field."))
        none
        (some ("The status list credential is incomplete or corrupted.")))
    else
      Sum.inr bitstringList

/-! Helper lemmas about the JS-level arithmetic. -/

theorem and_one_shl_eq_testBit (b k : Nat) : (b &&& (1 <<< k) != 0) = b.testBit k := by
  rw [Nat.shiftLeft_eq, one_mul]
  cases h : b.testBit k with
  | false =>
    have h0 : b &&& 2 ^ k = 0 := by rw [Nat.and_two_pow, h]; simp
    simp [h0]
  | true =>
    have h0 : b &&& 2 ^ k = 2 ^ k := by rw [Nat.and_two_pow, h]; simp
    simp [h0, bne_iff_ne]

theorem shr_and_one_eq_testBit (b k : Nat) : ((b >>> k) &&& 1 != 0) = b.testBit k := by
  rw [Nat.and_comm]
  rfl

theorem fdiv8_nonneg (i : Int) (h : 0 ≤ i) : i.fdiv 8 = ((i.toNat / 8 : Nat) : Int) := by
  rw [Int.fdiv_eq_ediv _ (by norm_num)]
  omega

theorem tmod8_nonneg (i : Int) (h : 0 ≤ i) : i.tmod 8 = ((i.toNat % 8 : Nat) : Int) := by
  rw [Int.tmod_eq_emod h (by norm_num)]
  omega

theorem jsShift_ofNat (m : Nat) (h : m < 32) : jsShift (m : Int) = m := by
  show ((m : Int) % 32).toNat = m
  omega

theorem jsElem_ofNat (l : List Nat) (n : Nat) : jsElem l (n : Int) = l.getD n 0 := by
  simp [jsElem]

/-- The source's bit test `(byte & (1 << (index % 8))) !== 0` agrees with the
specification formula `(bytes[floor(index/8)] >> (index % 8)) & 1 != 0`. -/
theorem bitExpr_eq (B : List Nat) (i : Int) (h0 : 0 ≤ i) :
    ((jsElem B (i.fdiv 8)) &&& (1 <<< (jsShift (i.tmod 8))) != 0) =
      (((B.getD (i.toNat / 8) 0) >>> (i.toNat % 8)) &&& 1 != 0) := by
  rw [fdiv8_nonneg i h0, tmod8_nonneg i h0, jsShift_ofNat _ (by omega), jsElem_ofNat]
  rw [and_one_shl_eq_testBit, shr_and_one_eq_testBit]

theorem fdiv8_lt_length (B : List Nat) (i : Int) (h0 : 0 ≤ i)
    (h1 : i < 8 * (B.length : Int)) : ¬ (i.fdiv 8 ≥ (B.length : Int)) := by
  rw [Int.fdiv_eq_ediv _ (by norm_num)]
  omega

/-- In-range evaluation of the `DetailedError`-returning `getBitStatus`. -/
theorem getBitStatus_in_range (B : List Nat) (i : Int) (h0 : 0 ≤ i)
    (h1 : i < 8 * (B.length : Int)) :
    getBitStatus B i = Sum.inr (((B.getD (i.toNat / 8) 0) >>> (i.toNat % 8)) &&& 1 != 0) := by
  simp only [getBitStatus]
  rw [if_neg (by omega : ¬ i < 0), if_neg (fdiv8_lt_length B i h0 h1)]
  rw [bitExpr_eq B i h0]

/-- C1: for every byte array `B` and every integer `i` with
`0 ≤ i ≤ 8*len(B)-1`, `getBitStatus B i` returns the boolean
`((B[i/8] >> (i % 8)) & 1) != 0`; bit 0 within each byte is the
least-significant bit. -/
theorem getBitStatus_bit_formula (B : List Nat) (i : Int)
    (h0 : 0 ≤ i) (h1 : i ≤ 8 * (B.length : Int) - 1) :
    getBitStatus B i = Sum.inr (((B.getD (i.toNat / 8) 0) >>> (i.toNat % 8)) &&& 1 != 0) :=
  getBitStatus_in_range B i h0 (by omega)

/-- Witness for C1 at `B = [5, 0]`, `i = 3`. -/
theorem getBitStatus_bit_formula_witness :
    (0 : Int) ≤ 3 ∧ (3 : Int) ≤ 8 * (([5, 0] : List Nat).length : Int) - 1 ∧
      getBitStatus [5, 0] 3 =
        Sum.inr (((([5, 0] : List Nat).getD ((3 : Int).toNat / 8) 0) >>>
          ((3 : Int).toNat % 8)) &&& 1 != 0) :=
  ⟨by decide, by decide, getBitStatus_bit_formula [5, 0] 3 (by decide) (by decide)⟩

/-- C3: for every byte array `B` and every integer `i` with `i < 0` or
`i ≥ 8*len(B)`, `getBitStatus B i` returns a `DetailedError` with code
`INVALID_BIT_INDEX`; in the out-of-range-high case the error message states
the maximum valid index `8*len(B)-1`. -/
theorem getBitStatus_out_of_range (B : List Nat) (i : Int)
    (h : i < 0 ∨ 8 * (B.length : Int) ≤ i) :
    ∃ e, getBitStatus B i = Sum.inl e ∧ e.code = ErrorCode.INVALID_BIT_INDEX ∧
      (0 ≤ i → e.details = some ("Index " ++ toString i ++ " exceeds the maximum index " ++
        toString (8 * (B.length : Int) - 1) ++ ".")) := by
  simp only [getBitStatus]
  rcases h with h | h
  · rw [if_pos h]
    exact ⟨_, rfl, rfl, fun h0 => absurd h0 (by omega)⟩
  · rw [if_neg (by omega : ¬ i < 0)]
    rw [if_pos (by rw [Int.fdiv_eq_ediv _ (by norm_num)]; omega : i.fdiv 8 ≥ (B.length : Int))]
    refine ⟨_, rfl, rfl, fun _ => ?_⟩
    have hmul : (8 : Int) * (B.length : Int) - 1 = (B.length : Int) * 8 - 1 := by ring
    rw [hmul]
    rfl

/-- Witness for C3 at `B = [5]`, `i = 16`. -/
theorem getBitStatus_out_of_range_witness :
    ((16 : Int) < 0 ∨ 8 * (([5] : List Nat).length : Int) ≤ 16) ∧
      ∃ e, getBitStatus [5] 16 = Sum.inl e ∧ e.code = ErrorCode.INVALID_BIT_INDEX ∧
        ((0 : Int) ≤ 16 → e.details = some ("Index " ++ toString (16 : Int) ++
          " exceeds the maximum index " ++
          toString (8 * (([5] : List Nat).length : Int) - 1) ++ ".")) :=
  ⟨Or.inr (by decide), getBitStatus_out_of_range [5] 16 (Or.inr (by decide))⟩

/-- C10: the `DetailedError`-returning and the exception-throwing
implementations of `getBitStatus` agree on every in-range query: for
`0 ≤ i ≤ 8*len(B)-1` both return the same boolean bit value. -/
theorem getBitStatus_implementations_agree (B : List Nat) (i : Int)
    (h0 : 0 ≤ i) (h1 : i ≤ 8 * (B.length : Int) - 1) :
    ∃ b, getBitStatus B i = Sum.inr b ∧ getBitStatusThrowing B i = some b := by
  refine ⟨_, getBitStatus_in_range B i h0 (by omega), ?_⟩
  simp only [getBitStatusThrowing]
  rw [if_neg (fdiv8_lt_length B i h0 (by omega))]
  rw [bitExpr_eq B i h0]

/-- Witness for C10 at `B = [5]`, `i = 2`. -/
theorem getBitStatus_implementations_agree_witness :
    (0 : Int) ≤ 2 ∧ (2 : Int) ≤ 8 * (([5] : List Nat).length : Int) - 1 ∧
      ∃ b, getBitStatus [5] 2 = Sum.inr b ∧ getBitStatusThrowing [5] 2 = some b :=
  ⟨by decide, by decide, getBitStatus_implementations_agree [5] 2 (by decide) (by decide)⟩

/-- Entry produced for in-range position `i` by the range loop. -/
def rangeEntry (B : List Nat) (i : Int) : BitStatus :=
  { index := i,
    status := (((B.getD (i.toNat / 8) 0) >>> (i.toNat % 8)) &&& 1 != 0),
    purpose := "revocation" }

/-- The collection loop of `getBitRange` produces exactly one entry per index
when every visited index is in range. -/
theorem getBitRangeLoop_spec (B : List Nat) (n : Nat) :
    ∀ (i : Int), 0 ≤ i → i + (n : Int) ≤ 8 * (B.length : Int) →
    getBitRangeLoop B i n = (List.range n).map (fun (j : Nat) => rangeEntry B (i + (j : Int))) := by
  induction n with
  | zero => intro i h0 h1; simp [getBitRangeLoop]
  | succ m ih =>
    intro i h0 h1
    have hstat := getBitStatus_in_range B i h0 (by omega)
    simp only [getBitRangeLoop, hstat]
    rw [ih (i + 1) (by omega) (by omega)]
    rw [List.range_succ_eq_map]
    simp only [List.map_cons, List.map_map, List.singleton_append]
    congr 1
    · simp [rangeEntry]
    · refine List.map_congr_left (fun j hj => ?_)
      simp only [Function.comp]
      congr 1
      push_cast
      ring

/-- C2: for `0 ≤ start ≤ end ≤ 8*len(B)-1` with span at most 10000,
`getBitRange` returns exactly `end-start+1` entries, the entry at position
`j` carries index `start+j` (so indices ascend from `start` to `end`),
and its status equals the boolean `getBitStatus` returns at that index. -/
theorem getBitRange_entries (B : List Nat) (startIndex endIndex : Int)
    (h0 : 0 ≤ startIndex) (h1 : startIndex ≤ endIndex)
    (h2 : endIndex ≤ 8 * (B.length : Int) - 1)
    (h3 : endIndex - startIndex + 1 ≤ 10000) :
    ∃ l, getBitRange B startIndex endIndex = Sum.inr l ∧
      (l.length : Int) = endIndex - startIndex + 1 ∧
      ∀ (j : Nat) (hj : j < l.length),
        (l.get ⟨j, hj⟩).index = startIndex + (j : Int) ∧
        getBitStatus B (startIndex + (j : Int)) = Sum.inr ((l.get ⟨j, hj⟩).status) := by
  simp only [getBitRange]
  rw [if_neg (by omega : ¬ startIndex < 0), if_neg (by omega : ¬ endIndex < startIndex),
    if_neg (by omega : ¬ startIndex > (B.length : Int) * 8 - 1),
    if_neg (by omega : ¬ endIndex > (B.length : Int) * 8 - 1),
    if_neg (by omega : ¬ endIndex - startIndex + 1 > 10000)]
  rw [getBitRangeLoop_spec B (endIndex - startIndex + 1).toNat startIndex h0 (by omega)]
  refine ⟨_, rfl, by simp; omega, fun j hj => ?_⟩
  have hj' : j < (endIndex - startIndex + 1).toNat := by simpa using hj
  have hget : ((List.range (endIndex - startIndex + 1).toNat).map
      (fun (j : Nat) => rangeEntry B (startIndex + (j : Int)))).get ⟨j, hj⟩ =
      rangeEntry B (startIndex + (j : Int)) := by
    rw [List.get_map]
    congr 2
    simp
  rw [hget]
  refine ⟨rfl, ?_⟩
  exact getBitStatus_in_range B (startIndex + (j : Int)) (by omega) (by omega)

/-- Witness for C2 at `B = [5]`, `start = 1`, `end = 3`. -/
theorem getBitRange_entries_witness :
    (0 : Int) ≤ 1 ∧ (1 : Int) ≤ 3 ∧ (3 : Int) ≤ 8 * (([5] : List Nat).length : Int) - 1 ∧
      (3 : Int) - 1 + 1 ≤ 10000 ∧
      ∃ l, getBitRange [5] 1 3 = Sum.inr l ∧
        (l.length : Int) = 3 - 1 + 1 ∧
        ∀ (j : Nat) (hj : j < l.length),
          (l.get ⟨j, hj⟩).index = 1 + (j : Int) ∧
          getBitStatus [5] (1 + (j : Int)) = Sum.inr ((l.get ⟨j, hj⟩).status) :=
  ⟨by decide, by decide, by decide, by decide,
    getBitRange_entries [5] 1 3 (by decide) (by decide) (by decide) (by decide)⟩

/-- C4: `getBitRange` returns a `DetailedError` with code `INVALID_BIT_RANGE`
whenever `end < start`, `start < 0`, `start` or `end` exceeds `8*len(B)-1`,
or the span `end-start+1` exceeds 10000. -/
theorem getBitRange_invalid_range (B : List Nat) (startIndex endIndex : Int)
    (h : endIndex < startIndex ∨ startIndex < 0 ∨
      startIndex > 8 * (B.length : Int) - 1 ∨ endIndex > 8 * (B.length : Int) - 1 ∨
      endIndex - startIndex + 1 > 10000) :
    ∃ e, getBitRange B startIndex endIndex = Sum.inl e ∧
      e.code = ErrorCode.INVALID_BIT_RANGE := by
  simp only [getBitRange]
  by_cases h1 : startIndex < 0
  · rw [if_pos h1]; exact ⟨_, rfl, rfl⟩
  · rw [if_neg h1]
    by_cases h2 : endIndex < startIndex
    · rw [if_pos h2]; exact ⟨_, rfl, rfl⟩
    · rw [if_neg h2]
      by_cases h3 : startIndex > (B.length : Int) * 8 - 1
      · rw [if_pos h3]; exact ⟨_, rfl, rfl⟩
      · rw [if_neg h3]
        by_cases h4 : endIndex > (B.length : Int) * 8 - 1
        · rw [if_pos h4]; exact ⟨_, rfl, rfl⟩
        · rw [if_neg h4]
          by_cases h5 : endIndex - startIndex + 1 > 10000
          · rw [if_pos h5]; exact ⟨_, rfl, rfl⟩
          · exfalso; omega

/-- Witness for C4 at `B = []`, `start = end = 0` (start exceeds `8*0-1`). -/
theorem getBitRange_invalid_range_witness :
    ((0 : Int) > 8 * (([] : List Nat).length : Int) - 1) ∧
      ∃ e, getBitRange ([] : List Nat) 0 0 = Sum.inl e ∧
        e.code = ErrorCode.INVALID_BIT_RANGE :=
  ⟨by decide, getBitRange_invalid_range [] 0 0 (Or.inr (Or.inr (Or.inl (by decide))))⟩

/-- C5 (code-bug evidence): `getBitRange` takes no status purpose at all and
hardcodes `purpose = "revocation"` in every entry it returns, so a credential
whose declared `statusPurpose` is `"suspension"` still yields entries tagged
`"revocation"`; shown here by evaluating the embedded code. -/
theorem getBitRange_hardcodes_revocation :
    getBitRange [1] 0 0 =
      Sum.inr [{ index := 0, status := true, purpose := "revocation" }] := by
  decide

/-- C6: when the input bytes carry no GZIP magic and raw DEFLATE inflation
fails, the decompression stage of `decodeStatusList` succeeds with the input
bytes unchanged (the pass-through copy). -/
theorem decodeStatusList_passthrough
    (inflateGzip inflateRaw : List Nat → Except String (List Nat))
    (compressed : List Nat) (msg : String)
    (hmagic : hasGzipMagic compressed = false)
    (hraw : inflateRaw compressed = Except.error msg) :
    decodeStatusListBytes inflateGzip inflateRaw compressed = Sum.inr compressed := by
  simp only [decodeStatusListBytes]
  rw [if_neg (by simp [hmagic])]
  rw [hraw]
  rfl

/-- Witness for C6 at input `[0, 1]` with both inflate oracles failing. -/
theorem decodeStatusList_passthrough_witness :
    hasGzipMagic [0, 1] = false ∧
      (fun _ : List Nat => (Except.error ("nope") : Except String (List Nat))) [0, 1] =
        Except.error ("nope") ∧
      decodeStatusListBytes (fun _ => Except.error ("nope")) (fun _ => Except.error ("nope"))
        [0, 1] = Sum.inr [0, 1] :=
  ⟨by decide, rfl,
    decodeStatusList_passthrough (fun _ => Except.error ("nope")) (fun _ => Except.error ("nope"))
      [0, 1] ("nope") (by decide) rfl⟩

/-- C9: the `DECOMPRESSION_ERROR` branch of `decodeStatusList` is dead code:
the pass-through copy always succeeds, so no error the stage can return
carries code `DECOMPRESSION_ERROR` (non-GZIP inputs always succeed; GZIP
inputs can only fail with `GZIP_DECODE_ERROR`). -/
theorem decodeStatusList_no_decompression_error
    (inflateGzip inflateRaw : List Nat → Except String (List Nat))
    (compressed : List Nat) (e : DetailedError)
    (h : decodeStatusListBytes inflateGzip inflateRaw compressed = Sum.inl e) :
    e.code ≠ ErrorCode.DECOMPRESSION_ERROR := by
  simp only [decodeStatusListBytes, uint8ArrayCopy] at h
  by_cases hm : hasGzipMagic compressed = true
  · rw [if_pos hm] at h
    cases hg : inflateGzip compressed with
    | ok d => rw [hg] at h; exact absurd h (by simp)
    | error msg =>
      rw [hg] at h
      obtain rfl := (Sum.inl.inj h).symm
      simp [createError]
  · rw [if_neg hm] at h
    cases hr : inflateRaw compressed with
    | ok d => rw [hr] at h; exact absurd h (by simp)
    | error msg => rw [hr] at h; exact absurd h (by simp)

/-- Witness for C9 at a GZIP-magic input whose GZIP inflation fails. -/
theorem decodeStatusList_no_decompression_error_witness :
    decodeStatusListBytes (fun _ => Except.error ("g")) (fun _ => Except.error ("r"))
        [0x1f, 0x8b] =
      Sum.inl (createError ErrorCode.GZIP_DECODE_ERROR ("Failed to decompress GZIP data")
        (some ("The GZIP compressed data could not be decompressed. g"))
        none
        (some ("The compressed data may be corrupted. Try fetching the credential again."))) ∧
      (createError ErrorCode.GZIP_DECODE_ERROR ("Failed to decompress GZIP data")
        (some ("The GZIP compressed data could not be decompressed. g"))
        none
        (some ("The compressed data may be corrupted. Try fetching the credential again."))).code ≠
        ErrorCode.DECOMPRESSION_ERROR :=
  ⟨rfl,
    decodeStatusList_no_decompression_error (fun _ => Except.error ("g"))
      (fun _ => Except.error ("r")) [0x1f, 0x8b] _ rfl⟩

/-- C7: for an enveloped credential with non-empty `id`, unwrapping strips
exactly the first matching entry of the ordered recognized data-URL list and
continues on the remaining token; when none of the four entries matches,
unwrapping fails with `JWT_PARSE_ERROR` instead of proceeding. -/
theorem decodeEnvelopedCredential_prefix_handling
    (atob : String → Except String String)
    (jsonParse : String → Except String StatusListCredentialDoc)
    (env : EnvelopedVerifiableCredential) (hid : env.id ≠ "") :
    ((∀ p ∈ possiblePrefixes, jsStartsWith env.id p = false) →
      ∃ e, decodeEnvelopedCredential atob jsonParse env = Sum.inl e ∧
        e.code = ErrorCode.JWT_PARSE_ERROR) ∧
    (∀ p, possiblePrefixes.find? (fun q => jsStartsWith env.id q) = some p →
      jsSubstringFrom env.id p.length ≠ "" →
      decodeEnvelopedCredential atob jsonParse env =
        processJwtToken atob jsonParse (jsSubstringFrom env.id p.length)) := by
  constructor
  · intro hnone
    have hfind : possiblePrefixes.find? (fun q => jsStartsWith env.id q) = none :=
      List.find?_eq_none.mpr (fun p hp => by simp [hnone p hp])
    have hs : stripDataUrl env.id = none := by
      unfold stripDataUrl
      rw [hfind]
      rfl
    unfold decodeEnvelopedCredential
    rw [if_neg hid, hs]
    exact ⟨_, rfl, rfl⟩
  · intro p hfind hne
    have hs : stripDataUrl env.id = some (jsSubstringFrom env.id p.length) := by
      unfold stripDataUrl
      rw [hfind]
      rfl
    unfold decodeEnvelopedCredential
    rw [if_neg hid, hs]
    exact if_neg hne

set_option maxRecDepth 100000 in
/-- Witness for C7: a non-matching `id` produces `JWT_PARSE_ERROR`, and a
matching `id` continues on the token with its one data-URL entry removed. -/
theorem decodeEnvelopedCredential_prefix_handling_witness :
    (∃ e, decodeEnvelopedCredential (fun s => Except.ok s)
        (fun _ => Except.error ("not json")) { id := "https://example.com/list" } = Sum.inl e ∧
        e.code = ErrorCode.JWT_PARSE_ERROR) ∧
      decodeEnvelopedCredential (fun s => Except.ok s) (fun _ => Except.error ("not json"))
          { id := "data:application/jwt,a.b.c" } =
        processJwtToken (fun s => Except.ok s) (fun _ => Except.error ("not json"))
          (jsSubstringFrom ("data:application/jwt,a.b.c") ("data:application/jwt,").length) :=
  ⟨(decodeEnvelopedCredential_prefix_handling (fun s => Except.ok s)
      (fun _ => Except.error ("not json")) { id := "https://example.com/list" }
      (by decide)).1 (by decide),
    (decodeEnvelopedCredential_prefix_handling (fun s => Except.ok s)
      (fun _ => Except.error ("not json")) { id := "data:application/jwt,a.b.c" }
      (by decide)).2 ("data:application/jwt,") (by decide) (by decide)⟩

/-- C8: the validation gate run before any decoding returns
`MISSING_BITSTRING_LIST` when `credentialSubject` is absent,
`INVALID_CREDENTIAL_FORMAT` (message naming the actual type found) when the
subject type is not `BitstringStatusList`, `INVALID_CREDENTIAL_FORMAT` when
`encodedList` is absent or empty, and hands the subject to the decoding
stage exactly when all three checks pass. -/
theorem extractBitstringList_validation_gate (cred : StatusListCredentialDoc) :
    (cred.credentialSubject = none →
      ∃ e, extractBitstringList cred = Sum.inl e ∧
        e.code = ErrorCode.MISSING_BITSTRING_LIST) ∧
    (∀ bl, cred.credentialSubject = some bl → bl.type ≠ "BitstringStatusList" →
      ∃ e, extractBitstringList cred = Sum.inl e ∧
        e.code = ErrorCode.INVALID_CREDENTIAL_FORMAT ∧
        e.details = some ("Expected type \"BitstringStatusList\" but got \"" ++
          bl.type ++ "\".")) ∧
    (∀ bl, cred.credentialSubject = some bl → bl.type = "BitstringStatusList" →
      (bl.encodedList = none ∨ bl.encodedList = some "") →
      ∃ e, extractBitstringList cred = Sum.inl e ∧
        e.code = ErrorCode.INVALID_CREDENTIAL_FORMAT) ∧
    (∀ bl, extractBitstringList cred = Sum.inr bl ↔
      (cred.credentialSubject = some bl ∧ bl.type = "BitstringStatusList" ∧
        ∃ s, bl.encodedList = some s ∧ s ≠ "")) := by
  rcases hcs : cred.credentialSubject with _ | bl0
  · refine ⟨fun _ => ?_, fun bl hbl => by simp at hbl,
      fun bl hbl => by simp at hbl, fun bl => ?_⟩
    · simp only [extractBitstringList, hcs]
      exact ⟨_, rfl, rfl⟩
    · simp only [extractBitstringList, hcs]
      constructor
      · intro h; exact absurd h (by simp)
      · rintro ⟨h1, -, -⟩
        exact Option.noConfusion h1
  · refine ⟨fun h => by simp at h, fun bl hbl hty => ?_, fun bl hbl hty henc => ?_,
      fun bl => ?_⟩
    · obtain rfl : bl0 = bl := Option.some.inj hbl
      simp only [extractBitstringList, hcs]
      rw [if_pos hty]
      exact ⟨_, rfl, rfl, rfl⟩
    · obtain rfl : bl0 = bl := Option.some.inj hbl
      simp only [extractBitstringList, hcs]
      rw [if_neg (by simp [hty])]
      rw [if_pos (by rcases henc with h | h <;> simp [h])]
      exact ⟨_, rfl, rfl⟩
    · simp only [extractBitstringList, hcs]
      by_cases hty : bl0.type = "BitstringStatusList"
      · rw [if_neg (by simp [hty])]
        by_cases henc : bl0.encodedList.getD "" = ""
        · rw [if_pos henc]
          constructor
          · intro h; exact absurd h (by simp)
          · rintro ⟨h1, -, s, h3, h4⟩
            obtain rfl : bl0 = bl := Option.some.inj h1
            rw [h3] at henc
            exact absurd henc (by simpa using h4)
        · rw [if_neg henc]
          constructor
          · intro h
            obtain rfl : bl0 = bl := Sum.inr.inj h
            refine ⟨rfl, hty, ?_⟩
            rcases he : bl0.encodedList with _ | s
            · rw [he] at henc; exact absurd rfl henc
            · exact ⟨s, rfl, by rw [he] at henc; simpa using henc⟩
          · rintro ⟨h1, -, -⟩
            obtain rfl : bl0 = bl := Option.some.inj h1
            rfl
      · rw [if_pos hty]
        constructor
        · intro h; exact absurd h (by simp)
        · rintro ⟨h1, h2, -⟩
          obtain rfl : bl0 = bl := Option.some.inj h1
          exact absurd h2 hty

/-- Witness for C8 at a credential with no `credentialSubject`. -/
theorem extractBitstringList_validation_gate_witness :
    ∃ e, extractBitstringList { credentialSubject := none } = Sum.inl e ∧
      e.code = ErrorCode.MISSING_BITSTRING_LIST :=
  (extractBitstringList_validation_gate { credentialSubject := none }).1 rfl

end BitstringDebugger
